import Mathlib

/-
  Verification of the Chroma emulator's cycle scheduler, halt logic, hardware
  register semantics and ROM/BIOS loading, as a shallow embedding of the
  C++ sources (src/gba/core/Core.cpp, src/gba/hardware/Timer.h,
  src/emu/ParseOptions.cpp, src/gb/memory/CartridgeHeader.cpp).
-/

namespace Chroma

/- ## Hardware tick accounting: Core::UpdateHardware (Core.cpp:95-107)

Each peripheral field records the list of cycle amounts its tick entry point
has received, in order.  `Core` owns an LCD, four timers, four DMA channels,
a keypad and a serial port; `UpdateHardware` forwards the step's cycles to
the LCD (`lcd->Update`), to each timer (`timer.Tick`) and to the memory's
delayed save operation (`mem->DelayedSaveOp`) and to nothing else. -/

structure HwState where
  lcdTicks : List Int
  timer0Ticks : List Int
  timer1Ticks : List Int
  timer2Ticks : List Int
  timer3Ticks : List Int
  saveTicks : List Int
  dmaTicks : List Int
  serialTicks : List Int
  audioTicks : List Int
deriving DecidableEq

def HwState.init : HwState := ⟨[], [], [], [], [], [], [], [], []⟩

/-- Embeds Core::UpdateHardware (Core.cpp:95-107): returns immediately when
cycles == 0; otherwise forwards `cycles` once to `lcd->Update`, once to each
`timer.Tick`, and once to `mem->DelayedSaveOp`.  The DMA channels, the serial
port and any audio unit are not ticked by this function. -/
def updateHardware (cycles : Int) (h : HwState) : HwState :=
  if cycles = 0 then h
  else
    { h with
      lcdTicks := h.lcdTicks ++ [cycles]
      timer0Ticks := h.timer0Ticks ++ [cycles]
      timer1Ticks := h.timer1Ticks ++ [cycles]
      timer2Ticks := h.timer2Ticks ++ [cycles]
      timer3Ticks := h.timer3Ticks ++ [cycles]
      saveTicks := h.saveTicks ++ [cycles] }

/-- Appending a list of tick amounts to every peripheral that
Core::UpdateHardware actually forwards cycles to. -/
def hwAppend (h : HwState) (l : List Int) : HwState :=
  { h with
    lcdTicks := h.lcdTicks ++ l
    timer0Ticks := h.timer0Ticks ++ l
    timer1Ticks := h.timer1Ticks ++ l
    timer2Ticks := h.timer2Ticks ++ l
    timer3Ticks := h.timer3Ticks ++ l
    saveTicks := h.saveTicks ++ l }

theorem hwAppend_nil (h : HwState) : hwAppend h [] = h := by
  cases h; simp [hwAppend]

theorem hwAppend_append (h : HwState) (l₁ l₂ : List Int) :
    hwAppend (hwAppend h l₁) l₂ = hwAppend h (l₁ ++ l₂) := by
  cases h; simp [hwAppend]

theorem updateHardware_eq_hwAppend (c : Int) (h : HwState) (hc : c ≠ 0) :
    updateHardware c h = hwAppend h [c] := by
  cases h; simp [updateHardware, hwAppend, hc]

/- ## CPU execution model

The scheduler loop of Cpu::Execute lives in gba/cpu/Cpu.cpp, which is part of
the repository (src/CMakeLists.txt lists it) but is not among the provided
sources; only its caller Core::EmulatorLoop (Core.cpp:53-93) and its callees
Core::UpdateHardware / Core::HaltCycles are.  The execution engine is
therefore modelled from the spec. -/

/-- Modelled from the spec: the instruction execution engine of
gba/cpu/Cpu.cpp (absent from src/).  Spec 4.1: `Step() -> cycles_consumed`,
and every step costs at least the fetch, so each per-step cycle cost is
positive.  The model abstracts the guest program as the infinite sequence of
per-step cycle costs, indexed by step number. -/
structure CpuModel where
  stepCost : Nat → Nat
  stepCost_pos : ∀ i, 0 < stepCost i

/-- Modelled from the spec: the run loop of Cpu::Execute (spec 4.3, absent
from src/): repeatedly step the execution engine while the running cycle
counter is below `target`, forwarding each step's cost to
Core::UpdateHardware (which is embedded above from Core.cpp).  Returns the
next step index, the hardware state, and the total cycles consumed. -/
def executeAux (m : CpuModel) (i : Nat) (h : HwState) (consumed target : Int) :
    Nat × HwState × Int :=
  if _hlt : consumed < target then
    executeAux m (i + 1) (updateHardware (m.stepCost i) h)
      (consumed + (m.stepCost i : Int)) target
  else
    (i, h, consumed)
termination_by (target - consumed).toNat
decreasing_by
  have hpos := m.stepCost_pos i
  omega

theorem executeAux_step (m : CpuModel) (i : Nat) (h : HwState) (c t : Int)
    (hlt : c < t) :
    executeAux m i h c t =
      executeAux m (i + 1) (updateHardware (m.stepCost i) h)
        (c + (m.stepCost i : Int)) t := by
  rw [executeAux.eq_def, dif_pos hlt]

theorem executeAux_done (m : CpuModel) (i : Nat) (h : HwState) (c t : Int)
    (hge : ¬ c < t) :
    executeAux m i h c t = (i, h, c) := by
  rw [executeAux.eq_def, dif_neg hge]

/-- Result of one Cpu::Execute call: next step index, hardware state, total
cycles consumed, and the returned overspend `target - consumed`. -/
structure ExecResult where
  idx : Nat
  hw : HwState
  consumed : Int
  overspent : Int
deriving DecidableEq

/-- Modelled from the spec: Cpu::Execute (spec 4.3, absent from src/).
Runs the step loop from a zero cycle counter and returns the (always ≤ 0)
difference `target - consumed` as the overspend. -/
def cpuExecute (m : CpuModel) (i : Nat) (h : HwState) (target : Int) :
    ExecResult :=
  let r := executeAux m i h 0 target
  ⟨r.1, r.2.1, r.2.2, target - r.2.2⟩

/-- The per-step cycle costs of `n` consecutive steps starting at step `i`. -/
def stepCosts (m : CpuModel) (i n : Nat) : List Int :=
  (List.range n).map (fun k => (m.stepCost (i + k) : Int))

theorem stepCosts_zero (m : CpuModel) (i : Nat) : stepCosts m i 0 = [] := by
  simp [stepCosts]

theorem stepCosts_succ (m : CpuModel) (i n : Nat) :
    stepCosts m i (n + 1) = (m.stepCost i : Int) :: stepCosts m (i + 1) n := by
  simp only [stepCosts, List.range_succ_eq_map, List.map_cons, List.map_map]
  refine List.cons_eq_cons.mpr ⟨by simp, ?_⟩
  apply List.map_congr_left
  intro k hk
  simp only [Function.comp_apply]
  have harg : i + Nat.succ k = i + 1 + k := by omega
  rw [harg]

/-- Every cost in a `stepCosts` list is positive. -/
theorem stepCosts_pos (m : CpuModel) (i n : Nat) :
    ∀ x ∈ stepCosts m i n, 0 < x := by
  intro x hx
  simp only [stepCosts, List.mem_map, List.mem_range] at hx
  obtain ⟨k, _, rfl⟩ := hx
  exact_mod_cast m.stepCost_pos (i + k)

/-- Structural characterization of the execute loop: it runs some number `n`
of steps, appends exactly those steps' costs (once each, in order) to every
ticked peripheral, and consumes exactly their sum. -/
theorem executeAux_char (m : CpuModel) :
    ∀ (fuel : Nat) (i : Nat) (h : HwState) (c t : Int),
      (t - c).toNat ≤ fuel →
      ∃ n : Nat,
        executeAux m i h c t =
          (i + n, hwAppend h (stepCosts m i n), c + (stepCosts m i n).sum) := by
  intro fuel
  induction fuel with
  | zero =>
    intro i h c t hle
    have hge : ¬ c < t := by omega
    refine ⟨0, ?_⟩
    rw [executeAux_done m i h c t hge]
    simp [stepCosts_zero, hwAppend_nil]
  | succ k ih =>
    intro i h c t hle
    by_cases hlt : c < t
    · rw [executeAux_step m i h c t hlt]
      have hpos := m.stepCost_pos i
      obtain ⟨n, hn⟩ := ih (i + 1) (updateHardware (m.stepCost i) h)
        (c + (m.stepCost i : Int)) t (by omega)
      refine ⟨n + 1, ?_⟩
      rw [hn]
      have hne : ((m.stepCost i : Int)) ≠ 0 := by omega
      rw [updateHardware_eq_hwAppend _ _ hne]
      rw [hwAppend_append, stepCosts_succ]
      simp only [List.singleton_append, List.sum_cons]
      rw [show i + 1 + n = i + (n + 1) by omega, add_assoc]
    · refine ⟨0, ?_⟩
      rw [executeAux_done m i h c t hlt]
      simp [stepCosts_zero, hwAppend_nil]

/-- The loop never stops before reaching the target. -/
theorem executeAux_ge (m : CpuModel) :
    ∀ (fuel : Nat) (i : Nat) (h : HwState) (c t : Int),
      (t - c).toNat ≤ fuel → t ≤ (executeAux m i h c t).2.2 := by
  intro fuel
  induction fuel with
  | zero =>
    intro i h c t hle
    have hge : ¬ c < t := by omega
    rw [executeAux_done m i h c t hge]
    show t ≤ c
    omega
  | succ k ih =>
    intro i h c t hle
    by_cases hlt : c < t
    · rw [executeAux_step m i h c t hlt]
      have hpos := m.stepCost_pos i
      exact ih (i + 1) _ (c + (m.stepCost i : Int)) t (by omega)
    · rw [executeAux_done m i h c t hlt]
      show t ≤ c
      omega

/-- Running the loop toward a far target passes through the state the loop
reaches on any nearer target. -/
theorem executeAux_extend (m : CpuModel) :
    ∀ (fuel : Nat) (i : Nat) (h : HwState) (c t u : Int),
      (t - c).toNat ≤ fuel → t ≤ u →
      executeAux m i h c u =
        executeAux m (executeAux m i h c t).1 (executeAux m i h c t).2.1
          (executeAux m i h c t).2.2 u := by
  intro fuel
  induction fuel with
  | zero =>
    intro i h c t u hle htu
    have hge : ¬ c < t := by omega
    rw [executeAux_done m i h c t hge]
  | succ k ih =>
    intro i h c t u hle htu
    by_cases hlt : c < t
    · have hltu : c < u := by omega
      rw [executeAux_step m i h c t hlt, executeAux_step m i h c u hltu]
      have hpos := m.stepCost_pos i
      exact ih (i + 1) _ (c + (m.stepCost i : Int)) t u (by omega) htu
    · rw [executeAux_done m i h c t hlt]

/-- The loop depends on the cycle counter and the target only through their
difference. -/
theorem executeAux_shift (m : CpuModel) :
    ∀ (fuel : Nat) (i : Nat) (h : HwState) (c t d : Int),
      (t - c).toNat ≤ fuel →
      executeAux m i h (c + d) (t + d) =
        ((executeAux m i h c t).1, (executeAux m i h c t).2.1,
          (executeAux m i h c t).2.2 + d) := by
  intro fuel
  induction fuel with
  | zero =>
    intro i h c t d hle
    have hge : ¬ c < t := by omega
    have hge' : ¬ c + d < t + d := by omega
    rw [executeAux_done m i h c t hge, executeAux_done m i h (c + d) (t + d) hge']
  | succ k ih =>
    intro i h c t d hle
    by_cases hlt : c < t
    · have hlt' : c + d < t + d := by omega
      rw [executeAux_step m i h c t hlt, executeAux_step m i h (c + d) (t + d) hlt']
      have hpos := m.stepCost_pos i
      have := ih (i + 1) (updateHardware (m.stepCost i) h)
        (c + (m.stepCost i : Int)) t d (by omega)
      rw [show c + d + (m.stepCost i : Int) = c + (m.stepCost i : Int) + d by ring]
      exact this
    · have hge' : ¬ c + d < t + d := by omega
      rw [executeAux_done m i h c t hlt, executeAux_done m i h (c + d) (t + d) hge']

/-- Characterization of a full Cpu::Execute call: some number `n` of steps
run, their costs are appended to every ticked peripheral, and their sum is
the consumed cycle count. -/
theorem cpuExecute_char (m : CpuModel) (i : Nat) (h : HwState) (t : Int) :
    ∃ n : Nat,
      (cpuExecute m i h t).idx = i + n ∧
      (cpuExecute m i h t).hw = hwAppend h (stepCosts m i n) ∧
      (stepCosts m i n).sum = (cpuExecute m i h t).consumed := by
  obtain ⟨n, hn⟩ := executeAux_char m (t - 0).toNat i h 0 t (le_refl _)
  refine ⟨n, ?_, ?_, ?_⟩
  · show (executeAux m i h 0 t).1 = i + n
    rw [hn]
  · show (executeAux m i h 0 t).2.1 = hwAppend h (stepCosts m i n)
    rw [hn]
  · show (stepCosts m i n).sum = (executeAux m i h 0 t).2.2
    rw [hn]
    show (stepCosts m i n).sum = 0 + (stepCosts m i n).sum
    rw [zero_add]

/- ## Claim C1: cycle forwarding to peripherals -/

/-- C1 counterexample: Core::UpdateHardware with a step cost of 3 forwards 3
cycles to the LCD and to each timer, but forwards nothing to the DMA
channels, the serial port, or any audio unit, so the sum of cycle costs
produced by the CPU (3) is not received by every peripheral named by the
claim. -/
theorem updateHardware_dma_counterexample :
    (updateHardware 3 HwState.init).lcdTicks = [3] ∧
    (updateHardware 3 HwState.init).timer0Ticks = [3] ∧
    (updateHardware 3 HwState.init).dmaTicks = [] ∧
    (updateHardware 3 HwState.init).serialTicks = [] ∧
    (updateHardware 3 HwState.init).audioTicks = [] := by
  refine ⟨?_, ?_, ?_, ?_, ?_⟩ <;> rfl

/-- C1 (amended): every Cpu::Execute run appends exactly the executed steps'
cycle costs, once each and in cycle order, to the LCD, to each of the four
timers and to the delayed save operation, while the DMA channels, serial
port and audio unit receive nothing; the costs are all positive and their
sum is exactly the number of cycles consumed, so no cycle is lost or
double-ticked for the peripherals that Core::UpdateHardware actually
ticks. -/
theorem updateHardware_forwards_exactly (m : CpuModel) (i : Nat) (h : HwState)
    (t : Int) :
    ∃ n : Nat,
      (cpuExecute m i h t).idx = i + n ∧
      (cpuExecute m i h t).hw = hwAppend h (stepCosts m i n) ∧
      (stepCosts m i n).sum = (cpuExecute m i h t).consumed ∧
      (∀ x ∈ stepCosts m i n, 0 < x) := by
  obtain ⟨n, h1, h2, h3⟩ := cpuExecute_char m i h t
  exact ⟨n, h1, h2, h3, stepCosts_pos m i n⟩

/- ## Claim C4: quantum-splitting invariance -/

/-- C4: calling Execute(a) and then Execute(b + overspend) consumes in total
exactly as many cycles as the single call Execute(a + b), and leaves the CPU
and the peripherals in the same state. -/
theorem execute_quantum_split (m : CpuModel) (i : Nat) (h : HwState)
    (a b : Int) (ha : 0 ≤ a) (hb : 0 ≤ b) :
    (cpuExecute m i h a).consumed
        + (cpuExecute m (cpuExecute m i h a).idx (cpuExecute m i h a).hw
            (b + (cpuExecute m i h a).overspent)).consumed
      = (cpuExecute m i h (a + b)).consumed ∧
    (cpuExecute m (cpuExecute m i h a).idx (cpuExecute m i h a).hw
        (b + (cpuExecute m i h a).overspent)).idx
      = (cpuExecute m i h (a + b)).idx ∧
    (cpuExecute m (cpuExecute m i h a).idx (cpuExecute m i h a).hw
        (b + (cpuExecute m i h a).overspent)).hw
      = (cpuExecute m i h (a + b)).hw := by
  have hext := executeAux_extend m (a - 0).toNat i h 0 a (a + b) (le_refl _)
    (by omega)
  set r1 := executeAux m i h 0 a with hr1
  have hshift := executeAux_shift m ((a + b - r1.2.2) - 0).toNat r1.1 r1.2.1 0
    (a + b - r1.2.2) r1.2.2 (le_refl _)
  have harith : (0 : Int) + r1.2.2 = r1.2.2 := by ring
  have harith2 : a + b - r1.2.2 + r1.2.2 = a + b := by ring
  rw [harith, harith2] at hshift
  have hco : b + (cpuExecute m i h a).overspent = a + b - r1.2.2 := by
    show b + (a - r1.2.2) = a + b - r1.2.2
    ring
  constructor
  · show r1.2.2 + (executeAux m r1.1 r1.2.1 0 (b + (a - r1.2.2))).2.2
      = (executeAux m i h 0 (a + b)).2.2
    rw [show b + (a - r1.2.2) = a + b - r1.2.2 by ring, hext, hshift]
    ring
  constructor
  · show (executeAux m r1.1 r1.2.1 0 (b + (a - r1.2.2))).1
      = (executeAux m i h 0 (a + b)).1
    rw [show b + (a - r1.2.2) = a + b - r1.2.2 by ring, hext, hshift]
  · show (executeAux m r1.1 r1.2.1 0 (b + (a - r1.2.2))).2.1
      = (executeAux m i h 0 (a + b)).2.1
    rw [show b + (a - r1.2.2) = a + b - r1.2.2 by ring, hext, hshift]

/-- A concrete instruction-cost stream: every step costs one cycle. -/
def unitCpu : CpuModel := ⟨fun _ => 1, fun _ => Nat.one_pos⟩

/-- C4 witness at a concrete input. -/
theorem execute_quantum_split_witness :
    (0 : Int) ≤ 10 ∧ (0 : Int) ≤ 5 ∧
    (cpuExecute unitCpu 0 HwState.init 10).consumed
        + (cpuExecute unitCpu (cpuExecute unitCpu 0 HwState.init 10).idx
            (cpuExecute unitCpu 0 HwState.init 10).hw
            (5 + (cpuExecute unitCpu 0 HwState.init 10).overspent)).consumed
      = (cpuExecute unitCpu 0 HwState.init (10 + 5)).consumed :=
  ⟨by norm_num, by norm_num,
    (execute_quantum_split unitCpu 0 HwState.init 10 5 (by norm_num)
      (by norm_num)).1⟩

/- ## Emulator loop: Core::EmulatorLoop (Core.cpp:53-93) -/

/-- The cycles_per_frame constant of Core::EmulatorLoop (Core.cpp:54). -/
def cyclesPerFrame : Int := 280896

/-- The emulated state visible to one Core::EmulatorLoop iteration: the CPU
position in the instruction stream, the peripheral tick accounts, the
carried overspent_cycles, and the frame_advance flag. -/
structure EmuState where
  cpuIdx : Nat
  hw : HwState
  overspent : Int
  frameAdvance : Bool
deriving DecidableEq

/-- Embeds one iteration of Core::EmulatorLoop (Core.cpp:62-92).  `pause`
models the pause member as set by input callbacks before the iteration.
When pause && !frame_advance holds, the iteration only delays and re-renders
the existing front buffer, touching no emulated state.  Otherwise
frame_advance is cleared, the target is cycles_per_frame + overspent_cycles
(Core.cpp:78), and cpu->Execute(target) runs with its return value stored
back into overspent_cycles (Core.cpp:79). -/
def emuIteration (m : CpuModel) (pause : Bool) (s : EmuState) : EmuState :=
  if pause && !s.frameAdvance then s
  else
    let r := cpuExecute m s.cpuIdx s.hw (cyclesPerFrame + s.overspent)
    ⟨r.idx, r.hw, r.overspent, false⟩

/-- Iterating Core::EmulatorLoop over a list of per-iteration pause values. -/
def emuRun (m : CpuModel) (s : EmuState) : List Bool → EmuState
  | [] => s
  | p :: ps => emuRun m (emuIteration m p s) ps

theorem cpuExecute_consumed_ge (m : CpuModel) (i : Nat) (h : HwState)
    (t : Int) : t ≤ (cpuExecute m i h t).consumed :=
  executeAux_ge m (t - 0).toNat i h 0 t (le_refl _)

theorem cpuExecute_lcd_sum (m : CpuModel) (i : Nat) (h : HwState) (t : Int) :
    (cpuExecute m i h t).hw.lcdTicks.sum
      = h.lcdTicks.sum + (cpuExecute m i h t).consumed := by
  obtain ⟨n, _, hhw, hsum⟩ := cpuExecute_char m i h t
  rw [hhw, ← hsum]
  show (h.lcdTicks ++ stepCosts m i n).sum = _
  rw [List.sum_append]

/-- One executing (non-paused) iteration conserves cycles: the total cycles
ticked into the LCD plus the carried overspend grows by exactly one frame's
cycle budget. -/
theorem emuIteration_exec_sum (m : CpuModel) (s : EmuState) :
    (emuIteration m false s).hw.lcdTicks.sum
        + (emuIteration m false s).overspent
      = s.hw.lcdTicks.sum + s.overspent + cyclesPerFrame := by
  show (cpuExecute m s.cpuIdx s.hw (cyclesPerFrame + s.overspent)).hw.lcdTicks.sum
      + (cpuExecute m s.cpuIdx s.hw (cyclesPerFrame + s.overspent)).overspent
    = s.hw.lcdTicks.sum + s.overspent + cyclesPerFrame
  rw [cpuExecute_lcd_sum]
  show s.hw.lcdTicks.sum
      + (cpuExecute m s.cpuIdx s.hw (cyclesPerFrame + s.overspent)).consumed
      + ((cyclesPerFrame + s.overspent)
        - (cpuExecute m s.cpuIdx s.hw (cyclesPerFrame + s.overspent)).consumed)
    = s.hw.lcdTicks.sum + s.overspent + cyclesPerFrame
  ring

/- ## Claim C3: overspend accounting across scheduling quanta -/

/-- C3: in an executing EmulatorLoop iteration the target passed to Execute
is cycles_per_frame plus the carried overspend; Execute consumes at least
the target and returns the (always ≤ 0) difference target - consumed, which
becomes the next iteration's carry; and over any n consecutive executing
iterations the cycles ticked into the peripherals plus the final carry equal
the initial account plus exactly n frame budgets, so no overspend is ever
lost or double-counted. -/
theorem execute_overspend_carry (m : CpuModel) (s : EmuState) (n : Nat) :
    ((emuIteration m false s).overspent
        = (cyclesPerFrame + s.overspent)
          - (cpuExecute m s.cpuIdx s.hw (cyclesPerFrame + s.overspent)).consumed ∧
      cyclesPerFrame + s.overspent
        ≤ (cpuExecute m s.cpuIdx s.hw (cyclesPerFrame + s.overspent)).consumed ∧
      (emuIteration m false s).overspent ≤ 0) ∧
    (emuRun m s (List.replicate n false)).hw.lcdTicks.sum
        + (emuRun m s (List.replicate n false)).overspent
      = s.hw.lcdTicks.sum + s.overspent + n * cyclesPerFrame := by
  constructor
  · refine ⟨rfl, cpuExecute_consumed_ge m s.cpuIdx s.hw _, ?_⟩
    have hge := cpuExecute_consumed_ge m s.cpuIdx s.hw
      (cyclesPerFrame + s.overspent)
    show (cyclesPerFrame + s.overspent)
        - (cpuExecute m s.cpuIdx s.hw (cyclesPerFrame + s.overspent)).consumed
      ≤ 0
    omega
  · induction n generalizing s with
    | zero => simp [emuRun]
    | succ k ih =>
      show (emuRun m (emuIteration m false s) (List.replicate k false)).hw.lcdTicks.sum
          + (emuRun m (emuIteration m false s) (List.replicate k false)).overspent
        = s.hw.lcdTicks.sum + s.overspent + (k + 1 : Nat) * cyclesPerFrame
      rw [ih (emuIteration m false s), emuIteration_exec_sum]
      push_cast
      ring

/- ## Claim C8: paused iterations change nothing -/

/-- C8: when pause is set and frame_advance is clear at the top of a
Core::EmulatorLoop iteration, the iteration leaves every piece of emulated
state (CPU position, peripheral tick accounts, cycle overspend, and the
frame_advance flag itself) unchanged. -/
theorem paused_iteration_is_noop (m : CpuModel) (s : EmuState)
    (hfa : s.frameAdvance = false) :
    emuIteration m true s = s := by
  simp [emuIteration, hfa]

/-- C8 witness at a concrete state. -/
theorem paused_iteration_witness :
    emuIteration unitCpu true ⟨7, HwState.init, -3, false⟩
      = (⟨7, HwState.init, -3, false⟩ : EmuState) :=
  paused_iteration_is_noop unitCpu ⟨7, HwState.init, -3, false⟩ rfl

/- ## Halt fast-forward: Core::HaltCycles (Core.cpp:109-124) -/

/-- One timer as consulted by Core::HaltCycles: whether the memory's
interrupt-enable register enables this timer's interrupt
(mem->InterruptEnabled(Interrupt::Timer0 << timer.id)), and the value of
Timer::NextEvent(). -/
structure TimerQuery where
  intEnabled : Bool
  nextEvent : Int
deriving DecidableEq

/-- The body of the timer loop of Core::HaltCycles (Core.cpp:112-121): a
timer whose interrupt is disabled is skipped; a Timer::NextEvent() of 0
leaves the running minimum alone; otherwise it lowers it. -/
def haltStep (hc : Int) (t : TimerQuery) : Int :=
  if t.intEnabled then
    if t.nextEvent ≠ 0 then min hc t.nextEvent else hc
  else hc

/-- Embeds Core::HaltCycles (Core.cpp:109-124): the running minimum starts
from Lcd::NextEvent(); each timer is folded through `haltStep`; the
function returns std::min(halt_cycles + 1, remaining_cpu_cycles). -/
def haltCycles (lcdNext : Int) (timers : List TimerQuery) (remaining : Int) :
    Int :=
  min (timers.foldl haltStep lcdNext + 1) remaining

/-- The peripherals Core::HaltCycles actually consults, per the spec's
description: the LCD always, and each timer whose interrupt is enabled and
whose NextEvent is not the 0 sentinel. -/
def consultedEvents (lcdNext : Int) (timers : List TimerQuery) : List Int :=
  lcdNext ::
    (timers.filter (fun t => t.intEnabled && decide (t.nextEvent ≠ 0))).map
      (fun t => t.nextEvent)

theorem haltStep_eq (acc : Int) (t : TimerQuery) :
    haltStep acc t =
      if t.intEnabled && decide (t.nextEvent ≠ 0) then min acc t.nextEvent
      else acc := by
  obtain ⟨en, ne⟩ := t
  cases en <;> by_cases hne : ne = 0 <;> simp [haltStep, hne]

theorem haltCycles_foldl (timers : List TimerQuery) :
    ∀ acc : Int,
      timers.foldl haltStep acc
      = ((timers.filter (fun t => t.intEnabled && decide (t.nextEvent ≠ 0))).map
          (fun t => t.nextEvent)).foldl min acc := by
  induction timers with
  | nil => intro acc; rfl
  | cons t ts ih =>
    intro acc
    rw [List.foldl_cons, List.filter_cons]
    by_cases hp : (t.intEnabled && decide (t.nextEvent ≠ 0)) = true
    · rw [haltStep_eq, if_pos hp, if_pos hp, List.map_cons, List.foldl_cons]
      exact ih (min acc t.nextEvent)
    · rw [haltStep_eq, if_neg hp, if_neg hp]
      exact ih acc

theorem foldl_min_nonneg (l : List Int) :
    ∀ acc : Int, 0 ≤ acc → (∀ e ∈ l, 0 ≤ e) → 0 ≤ l.foldl min acc := by
  induction l with
  | nil => intro acc hacc _; exact hacc
  | cons e es ih =>
    intro acc hacc hall
    have he : 0 ≤ e := hall e (List.mem_cons_self e es)
    refine ih (min acc e) (le_min hacc he) ?_
    intro x hx
    exact hall x (List.mem_cons_of_mem e hx)

/- ## Claim C2: halt-skip amount -/

/-- C2 counterexample: with Lcd::NextEvent() = 5, no enabled timers and a
remaining budget of 100, Core::HaltCycles returns 6, one more than the
minimum consulted next-event value clamped to [1, remaining] as the claim
states it (which would be 5). -/
theorem haltCycles_counterexample :
    haltCycles 5 [] 100 = 6 ∧ max 1 (min (5 : Int) 100) = 5 := by
  constructor
  · show min ((5 : Int) + 1) 100 = 6
    norm_num
  · norm_num

/-- C2 (amended): Core::HaltCycles returns one more than the minimum over
the consulted peripherals of their cycles-until-next-event, clamped above by
remaining_cpu_cycles; a timer is consulted only when its interrupt is
enabled, a NextEvent of 0 is a sentinel that never lowers the result, and
whenever the consulted values are non-negative and at least one cycle of
budget remains the result is at least 1. -/
theorem haltCycles_amended (lcdNext : Int) (timers : List TimerQuery)
    (remaining : Int) (hrem : 1 ≤ remaining)
    (hnn : ∀ e ∈ consultedEvents lcdNext timers, 0 ≤ e) :
    haltCycles lcdNext timers remaining
        = min
          (((timers.filter
              (fun t => t.intEnabled && decide (t.nextEvent ≠ 0))).map
            (fun t => t.nextEvent)).foldl min lcdNext + 1)
          remaining ∧
      1 ≤ haltCycles lcdNext timers remaining := by
  have hfold := haltCycles_foldl timers lcdNext
  constructor
  · show min (_ + 1) remaining = _
    rw [hfold]
  · have hlcd : 0 ≤ lcdNext :=
      hnn lcdNext (List.mem_cons_self lcdNext _)
    have hmin : 0 ≤ ((timers.filter
        (fun t => t.intEnabled && decide (t.nextEvent ≠ 0))).map
          (fun t => t.nextEvent)).foldl min lcdNext := by
      refine foldl_min_nonneg _ lcdNext hlcd ?_
      intro e he
      exact hnn e (List.mem_cons_of_mem lcdNext he)
    show 1 ≤ min (_ + 1) remaining
    rw [hfold]
    exact le_min (by omega) hrem

/-- C2 witness at a concrete input: LCD next event 5; an enabled timer with
next event 3; a disabled timer with next event 1; an enabled timer at the
sentinel 0; remaining budget 100. -/
theorem haltCycles_amended_witness :
    1 ≤ haltCycles 5 [⟨true, 3⟩, ⟨false, 1⟩, ⟨true, 0⟩] 100 :=
  (haltCycles_amended 5 [⟨true, 3⟩, ⟨false, 1⟩, ⟨true, 0⟩] 100 (by norm_num)
    (by decide)).2

/- ## Hardware register write-mask semantics -/

/-- A GBA memory-mapped I/O register, as instantiated in
src/gba/hardware/Timer.h:30-32: a 16-bit value, a read mask, and a write
mask describing which bits software may modify. -/
structure IOReg where
  v : Nat
  read_mask : Nat
  write_mask : Nat
deriving DecidableEq

/-- Modelled from the spec: the write path of gba/memory/IOReg.h (absent
from src/).  Spec 3, Hardware Register: writes are always
value = (value & ~mask) | (new_value & mask), where mask is the register's
write mask; registers are 16-bit wide, so ~mask is mask XOR 0xFFFF. -/
def IOReg.write (r : IOReg) (data : Nat) : IOReg :=
  { r with
    v := (r.v &&& (0xFFFF ^^^ r.write_mask)) ||| (data &&& r.write_mask) }

/-- Timer counter register, initialised {0x0000, 0xFFFF, 0x0000} in
src/gba/hardware/Timer.h:30. -/
def timerCounter : IOReg := ⟨0x0000, 0xFFFF, 0x0000⟩

/-- Timer reload register, initialised {0x0000, 0x0000, 0xFFFF} in
src/gba/hardware/Timer.h:31. -/
def timerReload : IOReg := ⟨0x0000, 0x0000, 0xFFFF⟩

/-- Timer control register, initialised {0x0000, 0x00C7, 0x00C7} in
src/gba/hardware/Timer.h:32. -/
def timerControl : IOReg := ⟨0x0000, 0x00C7, 0x00C7⟩

/- ## Claim C6: write-mask semantics of control registers -/

/-- C6: a software write of `data` to a peripheral register stores
(old & ~write_mask) | (data & write_mask); bit for bit, every bit inside the
write mask takes the written value and every bit outside it is unchanged. -/
theorem ioreg_write_mask_correct (r : IOReg) (data : Nat) (i : Nat)
    (hv : r.v < 2 ^ 16) (hm : r.write_mask < 2 ^ 16) :
    (r.write data).v
        = (r.v &&& (0xFFFF ^^^ r.write_mask)) ||| (data &&& r.write_mask) ∧
      (r.write data).v.testBit i
        = if r.write_mask.testBit i then data.testBit i
          else r.v.testBit i := by
  refine ⟨rfl, ?_⟩
  show ((r.v &&& (0xFFFF ^^^ r.write_mask)) ||| (data &&& r.write_mask)).testBit i
      = _
  rw [Nat.testBit_lor, Nat.testBit_land, Nat.testBit_land, Nat.testBit_xor]
  by_cases hi : i < 16
  · have hmask : (0xFFFF : Nat).testBit i = true := by
      rw [show (0xFFFF : Nat) = 2 ^ 16 - 1 by norm_num,
        Nat.testBit_two_pow_sub_one]
      simpa using hi
    rw [hmask]
    cases hwm : r.write_mask.testBit i <;> cases hd : data.testBit i <;>
      cases hvb : r.v.testBit i <;> simp
  · have h16 : (2 : Nat) ^ 16 ≤ 2 ^ i := Nat.pow_le_pow_right (by norm_num)
      (by omega)
    have hwm : r.write_mask.testBit i = false :=
      Nat.testBit_eq_false_of_lt (lt_of_lt_of_le hm h16)
    have hvb : r.v.testBit i = false :=
      Nat.testBit_eq_false_of_lt (lt_of_lt_of_le hv h16)
    rw [hwm, hvb]
    simp

/-- C6 witness: a write to the timer control register at a concrete input,
checked on bit 3. -/
theorem ioreg_write_mask_witness :
    (timerControl.write 0xABCD).v
        = (0x0000 &&& (0xFFFF ^^^ 0x00C7)) ||| (0xABCD &&& 0x00C7) :=
  (ioreg_write_mask_correct timerControl 0xABCD 3 (by norm_num [timerControl])
    (by norm_num [timerControl])).1

/- ## Exception controller and decode dispatch

The GBA CPU sources (gba/cpu/Cpu.cpp, gba/cpu/Instruction.cpp) are part of
the repository (src/CMakeLists.txt lists them) but are not among the
provided sources, so the decode tables and the exception controller are
modelled from spec 4.1-4.2. -/

/-- Modelled from the spec: the exception classes of the exception
controller state machine (spec 4.2). -/
inductive ExceptionClass where
  | reset
  | dataAbort
  | interrupt
  | softwareInterrupt
  | undefinedInstruction
deriving DecidableEq

/-- Modelled from the spec: the privilege modes (spec 3, Status Register):
user plus one state per exception class. -/
inductive CpuMode where
  | user
  | supervisor
  | irq
  | undefined
  | abort
deriving DecidableEq

/-- Modelled from the spec: the fixed privilege mode mandated for each
exception class (spec 4.2). -/
def exceptionMode : ExceptionClass → CpuMode
  | .reset => .supervisor
  | .dataAbort => .abort
  | .interrupt => .irq
  | .softwareInterrupt => .supervisor
  | .undefinedInstruction => .undefined

/-- Modelled from the spec: each exception class's fixed vector address
(spec 4.2). -/
def vectorAddr : ExceptionClass → Nat
  | .reset => 0x00
  | .undefinedInstruction => 0x04
  | .softwareInterrupt => 0x08
  | .dataAbort => 0x10
  | .interrupt => 0x18

/-- Modelled from the spec: the bit-packed status register contents the
exception controller manipulates (spec 3): privilege mode, the
instruction-width (16-bit decode) bit, and the interrupt-mask bit. -/
structure Psr where
  mode : CpuMode
  thumb : Bool
  irqDisable : Bool
deriving DecidableEq

/-- Modelled from the spec: the register state the exception controller
touches (spec 4.2): program counter, current status register, per-mode
saved status registers and per-mode link registers. -/
structure ArmState where
  pc : Nat
  cpsr : Psr
  spsr : CpuMode → Psr
  lr : CpuMode → Nat

/-- Modelled from the spec: exception entry (spec 4.2): save the current
status register into the target mode's saved-status slot, save the return
address into that mode's link register, switch the privilege mode, force
the 32-bit instruction width, mask interrupts, and jump to the class's
vector. -/
def enterException (s : ArmState) (c : ExceptionClass) : ArmState :=
  let m := exceptionMode c
  { pc := vectorAddr c
    cpsr := ⟨m, false, true⟩
    spsr := fun m' => if m' = m then s.cpsr else s.spsr m'
    lr := fun m' => if m' = m then s.pc else s.lr m' }

/-- Modelled from the spec: one fetch-decode-execute step (spec 4.1).  The
active decode table maps the fetched encoding to an operation handler; an
encoding with no entry raises the undefined-instruction exception through
the exception controller.  The Except layer records whether the step could
abort the host process: it never does. -/
def cpuStep (decodeTable : Nat → Option (ArmState → ArmState))
    (fetch : Nat → Nat) (s : ArmState) : Except String ArmState :=
  match decodeTable (fetch s.pc) with
  | none => .ok (enterException s .undefinedInstruction)
  | some handler => .ok (handler s)

/- ## Claim C7: missing decode entries raise the undefined exception -/

/-- C7: when the fetched encoding has no entry in the active decode table,
the step raises the architectural undefined-instruction exception through
the exception controller (mode switch, status save, link-register save,
vector dispatch) and the step never produces a host-fatal outcome. -/
theorem undefined_instruction_raises_exception
    (decodeTable : Nat → Option (ArmState → ArmState)) (fetch : Nat → Nat)
    (s : ArmState) (hmiss : decodeTable (fetch s.pc) = none) :
    cpuStep decodeTable fetch s
        = .ok (enterException s .undefinedInstruction) ∧
      (cpuStep decodeTable fetch s).isOk = true ∧
      (enterException s .undefinedInstruction).cpsr.mode = .undefined ∧
      (enterException s .undefinedInstruction).pc
        = vectorAddr .undefinedInstruction ∧
      (enterException s .undefinedInstruction).spsr .undefined = s.cpsr ∧
      (enterException s .undefinedInstruction).lr .undefined = s.pc := by
  have hstep : cpuStep decodeTable fetch s
      = .ok (enterException s .undefinedInstruction) := by
    unfold cpuStep
    rw [hmiss]
  refine ⟨hstep, ?_, rfl, rfl, ?_, ?_⟩
  · rw [hstep]; rfl
  · show (if CpuMode.undefined = exceptionMode .undefinedInstruction
        then s.cpsr else s.spsr .undefined) = s.cpsr
    rw [if_pos (show CpuMode.undefined = exceptionMode .undefinedInstruction
      from rfl)]
  · show (if CpuMode.undefined = exceptionMode .undefinedInstruction
        then s.pc else s.lr .undefined) = s.pc
    rw [if_pos (show CpuMode.undefined = exceptionMode .undefinedInstruction
      from rfl)]

/-- A concrete initial CPU state used by the C7 witness. -/
def armState0 : ArmState :=
  ⟨0x100, ⟨.user, false, false⟩, fun _ => ⟨.user, false, false⟩, fun _ => 0⟩

/-- C7 witness: with an empty decode table, stepping from a concrete state
enters the undefined-instruction exception and does not abort. -/
theorem undefined_instruction_witness :
    cpuStep (fun _ => none) (fun _ => 0) armState0
        = .ok (enterException armState0 .undefinedInstruction) ∧
      (cpuStep (fun _ => none) (fun _ => 0) armState0).isOk = true :=
  ⟨(undefined_instruction_raises_exception (fun _ => none) (fun _ => 0)
      armState0 rfl).1,
    (undefined_instruction_raises_exception (fun _ => none) (fun _ => 0)
      armState0 rfl).2.1⟩

/- ## Cartridge header parsing: src/gb/memory/CartridgeHeader.cpp -/

/-- The console kinds of gb/core/Enums.h as used by ParseOptions.cpp and
CartridgeHeader.cpp. -/
inductive Console where
  | DMG
  | CGB
  | AGB
  | DefaultConsole
deriving DecidableEq

/-- The game mode chosen by the cartridge header constructor
(CartridgeHeader.cpp:40-44). -/
inductive GameMode where
  | DMG
  | CGB
deriving DecidableEq

/-- The memory bank controllers recognised by GetMBCType
(CartridgeHeader.cpp:102-225). -/
inductive MBC where
  | NoMbc
  | MBC1
  | MBC1M
  | MBC2
  | MBC3
  | MBC5
deriving DecidableEq

/-- Diagnostics that CartridgeHeader emits on std::cerr without failing. -/
inductive Warning where
  | romSize
  | logo
  | checksum
deriving DecidableEq

/-- Reading one byte of a ROM held as a byte list; elements model u8, so
reads are taken mod 256. -/
def romByte (rom : List Nat) (i : Nat) : Nat :=
  rom.getD i 0 % 256

/-- The 48-byte Nintendo logo table of CartridgeHeader.cpp:241-245. -/
def nintendoLogo : List Nat :=
  [0xCE, 0xED, 0x66, 0x66, 0xCC, 0x0D, 0x00, 0x0B,
   0x03, 0x73, 0x00, 0x83, 0x00, 0x0C, 0x00, 0x0D,
   0x00, 0x08, 0x11, 0x1F, 0x88, 0x89, 0x00, 0x0E,
   0xDC, 0xCC, 0x6E, 0xE6, 0xDD, 0xDD, 0xD9, 0x99,
   0xBB, 0xBB, 0x67, 0x63, 0x6E, 0x0E, 0xEC, 0xCC,
   0xDD, 0xDC, 0x99, 0x9F, 0xBB, 0xB9, 0x33, 0x3E]

/-- Embeds the comparison performed by CartridgeHeader::CheckNintendoLogo
(CartridgeHeader.cpp:240-256): bytes from 0x104 are compared against the
logo table; the DMG boot ROM checks all 48 bytes, every other console only
the first 24.  The source only warns on a mismatch; this predicate is the
comparison itself. -/
def logoMatches (console : Console) (rom : List Nat) : Bool :=
  (List.range (if console = Console.DMG then 48 else 24)).all
    (fun k => romByte rom (0x104 + k) == nintendoLogo.getD k 0)

/-- Embeds the checksum computation of CartridgeHeader::HeaderChecksum
(CartridgeHeader.cpp:227-231): a u8 accumulator starting at 0 gets
checksum -= rom[i] + 1 over i in [0x134, 0x14D). -/
def headerChecksum (rom : List Nat) : Nat :=
  (List.range' 0x134 0x19).foldl
    (fun c i => (c + 512 - (romByte rom i + 1)) % 256) 0

/-- Embeds the comparison of CartridgeHeader.cpp:235: the computed checksum
against the header byte at 0x14D.  The source only warns on a mismatch. -/
def headerChecksumMatches (rom : List Nat) : Bool :=
  headerChecksum rom == romByte rom 0x14D

/-- Embeds CartridgeHeader::GetRAMSize (CartridgeHeader.cpp:68-100):
translates the RAM size identifier at 0x149, throwing on an unrecognized
value. -/
def getRamSize (rom : List Nat) : Except String Nat :=
  match romByte rom 0x149 with
  | 0x00 => .ok 0x00
  | 0x01 => .ok 0x800
  | 0x02 => .ok 0x2000
  | 0x03 => .ok 0x8000
  | 0x04 => .ok 0x20000
  | 0x05 => .ok 0x10000
  | _ => .error "Unrecognized external RAM quantity given in cartridge header."

/-- Embeds CartridgeHeader::GetMBCType (CartridgeHeader.cpp:102-225):
translates the MBC identifier at 0x147 into (mbc_mode, ext_ram_present,
rtc_present, rumble_present), throwing on unimplemented or unrecognized
controllers. -/
def getMbcType (rom : List Nat) : Except String (MBC × Bool × Bool × Bool) :=
  match romByte rom 0x147 with
  | 0x00 => .ok (.NoMbc, false, false, false)
  | 0x01 => .ok (.MBC1, false, false, false)
  | 0x02 => .ok (.MBC1, true, false, false)
  | 0x03 => .ok (.MBC1, true, false, false)
  | 0x05 => .ok (.MBC2, false, false, false)
  | 0x06 => .ok (.MBC2, true, false, false)
  | 0x08 => .ok (.NoMbc, true, false, false)
  | 0x09 => .ok (.NoMbc, true, false, false)
  | 0x0B => .error "MMM01 unimplemented."
  | 0x0C => .error "MMM01 unimplemented."
  | 0x0D => .error "MMM01 unimplemented."
  | 0x0F => .ok (.MBC3, false, true, false)
  | 0x10 => .ok (.MBC3, true, true, false)
  | 0x11 => .ok (.MBC3, false, false, false)
  | 0x12 => .ok (.MBC3, true, false, false)
  | 0x13 => .ok (.MBC3, true, false, false)
  | 0x19 => .ok (.MBC5, false, false, false)
  | 0x1C => .ok (.MBC5, false, false, true)
  | 0x1A => .ok (.MBC5, true, false, false)
  | 0x1B => .ok (.MBC5, true, false, false)
  | 0x1D => .ok (.MBC5, true, false, true)
  | 0x1E => .ok (.MBC5, true, false, true)
  | 0x20 => .error "MBC6 unimplemented."
  | 0x22 => .error "MBC7 unimplemented."
  | 0xFC => .error "Pocket Camera unimplemented."
  | 0xFD => .error "TAMA5 unimplemented."
  | 0xFE => .error "HuC3 unimplemented."
  | 0xFF => .error "HuC1 unimplemented."
  | _ => .error "Unrecognized MBC."

/-- The fields of CartridgeHeader set by its constructor. -/
structure CartridgeHeader where
  console : Console
  game_mode : GameMode
  num_rom_banks : Nat
  ram_size : Nat
  mbc_mode : MBC
  ext_ram_present : Bool
  rtc_present : Bool
  rumble_present : Bool
deriving DecidableEq

/-- Embeds the CartridgeHeader constructor (CartridgeHeader.cpp:25-66) in
source order: CGB flag and console resolution; game mode; ROM bank count
with a size warning; GetRAMSize and GetMBCType (the only failing steps);
the Nintendo logo and header checksum comparisons, which only emit
warnings; the MBC1M substitution; and the MBC2 RAM size fix-up.  Returns
the constructed header together with the warnings printed. -/
def cartridgeHeaderCtor (console : Console) (rom : List Nat)
    (multicart : Bool) : Except String (CartridgeHeader × List Warning) :=
  let cgbFlag := romByte rom 0x143 == 0xC0 || romByte rom 0x143 == 0x80
  let console' :=
    if console = Console.DefaultConsole then
      if cgbFlag then Console.CGB else Console.DMG
    else console
  let gameMode :=
    if console' = Console.CGB ∧ cgbFlag then GameMode.CGB else GameMode.DMG
  let numRomBanks := (0x8000 <<< romByte rom 0x148) / 0x4000
  let w1 : List Warning :=
    if rom.length ≠ numRomBanks * 0x4000 then [.romSize] else []
  match getRamSize rom with
  | .error e => .error e
  | .ok ramSize =>
    match getMbcType rom with
    | .error e => .error e
    | .ok (mbc, extRam, rtc, rumble) =>
      let w2 : List Warning := if logoMatches console' rom then [] else [.logo]
      let w3 : List Warning :=
        if headerChecksumMatches rom then [] else [.checksum]
      let mbc' := if mbc = MBC.MBC1 ∧ multicart then MBC.MBC1M else mbc
      let ramSize' := if mbc' = MBC.MBC2 ∧ extRam then 0x200 else ramSize
      .ok (⟨console', gameMode, numRomBanks, ramSize', mbc', extRam, rtc,
        rumble⟩, w1 ++ w2 ++ w3)

/-- Embeds the deciding checks of LoadGbaBios (ParseOptions.cpp:268-297):
`found` abstracts whether one of the two probed paths opened; `regOk`
abstracts CheckPathIsRegularFile passing; the BIOS must then be exactly
0x4000 bytes, yielding a vector of 0x4000 / 4 32-bit words. -/
def loadGbaBios (found : Bool) (regOk : Bool) (biosSize : Nat) :
    Except String Nat :=
  if !found then .error "Error when attempting to open gba_bios.bin"
  else if !regOk then .error "Provided path is not a regular file"
  else if biosSize ≠ 0x4000 then
    .error "GBA BIOS must be 16KB."
  else .ok (biosSize / 4)

/- ## Claim C5: which malformed images are construction-time failures -/

/-- A 0x150-byte all-zero ROM image: its header checksum does not match and
its Nintendo logo does not match. -/
def badRom : List Nat := List.replicate 0x150 0

set_option maxRecDepth 40000 in
/-- C5 counterexample: on a ROM whose header checksum and Nintendo logo are
both wrong, CartridgeHeader construction completes normally (the source
only prints warnings for these two checks), contradicting the claim that
such malformed images fail construction. -/
theorem cartHeader_warning_counterexample :
    headerChecksumMatches badRom = false ∧
    logoMatches Console.CGB badRom = false ∧
    (cartridgeHeaderCtor Console.CGB badRom false).isOk = true ∧
    (cartridgeHeaderCtor Console.CGB badRom false)
        = .ok (⟨Console.CGB, GameMode.DMG, 2, 0, MBC.NoMbc, false, false,
            false⟩, [.romSize, .logo, .checksum]) := by
  refine ⟨by decide, by decide, by decide, by rfl⟩

/-- C5 (amended): a wrong-sized GBA BIOS is a fatal load-time failure
(LoadGbaBios succeeds exactly on a found, regular, 16KB file), and
unrecognized RAM-size or MBC codes are fatal construction-time failures,
but a header checksum mismatch or Nintendo-logo mismatch in the cartridge
header only produces a warning: construction succeeds exactly when the
RAM-size and MBC codes are recognised, regardless of checksum or logo. -/
theorem construction_failure_amended :
    (∀ (found regOk : Bool) (biosSize : Nat),
      (loadGbaBios found regOk biosSize).isOk = true
        ↔ (found = true ∧ regOk = true ∧ biosSize = 0x4000)) ∧
    (∀ (console : Console) (rom : List Nat) (multicart : Bool),
      (cartridgeHeaderCtor console rom multicart).isOk
        = ((getRamSize rom).isOk && (getMbcType rom).isOk)) := by
  constructor
  · intro found regOk biosSize
    cases found <;> cases regOk <;> by_cases hs : biosSize = 0x4000 <;>
      simp [loadGbaBios, hs, Except.isOk, Except.toBool]
  · intro console rom multicart
    cases hr : getRamSize rom with
    | error e => simp [cartridgeHeaderCtor, hr, Except.isOk, Except.toBool]
    | ok ramSize =>
      cases hm : getMbcType rom with
      | error e => simp [cartridgeHeaderCtor, hr, hm, Except.isOk,
          Except.toBool]
      | ok info =>
        obtain ⟨mbc, extRam, rtc, rumble⟩ := info
        simp [cartridgeHeaderCtor, hr, hm, Except.isOk, Except.toBool]

/- ## ROM loading: LoadRom (ParseOptions.cpp:184-201) -/

/-- The in-memory ROM image at byte granularity: how many bytes the loaded
vector holds, and the byte stored at each in-range index. -/
structure RomImage where
  byteCount : Nat
  byteAt : Nat → Nat

/-- Embeds LoadRom<T> (ParseOptions.cpp:184-201) at byte granularity: the
vector holds rom_vector_size / sizeof(T) elements, zero-initialised, where
rom_vector_size is max(rom_size, 0x1000000) when console == AGB and
rom_size otherwise; the file's bytes are then read into its front.
`sizeofT` is sizeof(T) in bytes (1 for u8, 2 for u16). -/
def loadRom (file : List Nat) (console : Console) (sizeofT : Nat) :
    RomImage :=
  let romSize := file.length
  let romVectorSize :=
    if console = Console.AGB then max romSize 0x1000000 else romSize
  let count := (romVectorSize / sizeofT) * sizeofT
  { byteCount := count
    byteAt := fun i =>
      if i < count then (if i < romSize then romByte file i else 0) else 0 }

/- ## Claim C9: AGB ROM images are padded to at least 16MB -/

/-- C9 counterexample: an AGB ROM file of 0x1000001 bytes loaded as u16
elements yields a vector of 0x1000001 / 2 elements, i.e. 0x1000000 bytes,
not max(file_size, 0x1000000) = 0x1000001 bytes as claimed. -/
theorem loadRom_odd_size_counterexample :
    (loadRom (List.replicate 0x1000001 0) Console.AGB 2).byteCount
        = 0x1000000 ∧
      (0x1000000 : Nat) ≠ max 0x1000001 0x1000000 := by
  constructor
  · simp only [loadRom, List.length_replicate]
    norm_num
  · norm_num

/-- C9 (amended): for console = AGB the loaded image holds
(max(file_size, 0x1000000) / sizeof(T)) * sizeof(T) bytes — at least
0x1000000 whenever sizeof(T) divides 0x1000000, and exactly
max(file_size, 0x1000000) when that is a multiple of sizeof(T) — with the
file's contents as a prefix and every byte past the end of the file
zero. -/
theorem loadRom_amended (file : List Nat) (console : Console)
    (sizeofT : Nat) (hpos : 0 < sizeofT) (hdvd : sizeofT ∣ 0x1000000) :
    (loadRom file console sizeofT).byteCount
        = ((if console = Console.AGB then max file.length 0x1000000
            else file.length) / sizeofT) * sizeofT ∧
      (∀ i, i < (loadRom file console sizeofT).byteCount →
        i < file.length →
        (loadRom file console sizeofT).byteAt i = romByte file i) ∧
      (∀ i, file.length ≤ i → (loadRom file console sizeofT).byteAt i = 0) ∧
      (console = Console.AGB →
        0x1000000 ≤ (loadRom file console sizeofT).byteCount) := by
  refine ⟨rfl, ?_, ?_, ?_⟩
  · intro i hc hl
    show (if i < (loadRom file console sizeofT).byteCount
        then (if i < file.length then romByte file i else 0) else 0)
      = romByte file i
    rw [if_pos hc, if_pos hl]
  · intro i hl
    show (if i < (loadRom file console sizeofT).byteCount
        then (if i < file.length then romByte file i else 0) else 0) = 0
    by_cases hc : i < (loadRom file console sizeofT).byteCount
    · rw [if_pos hc, if_neg (by omega)]
    · rw [if_neg hc]
  · intro hagb
    show 0x1000000
      ≤ ((if console = Console.AGB then max file.length 0x1000000
          else file.length) / sizeofT) * sizeofT
    rw [if_pos hagb]
    calc (0x1000000 : Nat) = 0x1000000 / sizeofT * sizeofT :=
          (Nat.div_mul_cancel hdvd).symm
      _ ≤ max file.length 0x1000000 / sizeofT * sizeofT :=
          Nat.mul_le_mul_right _
            (Nat.div_le_div_right (le_max_right _ _))

/-- C9 witness at a concrete 3-byte AGB file loaded as u16 elements. -/
theorem loadRom_amended_witness :
    (loadRom [9, 8, 7] Console.AGB 2).byteAt 1 = romByte [9, 8, 7] 1 ∧
      (loadRom [9, 8, 7] Console.AGB 2).byteAt 100 = 0 ∧
      0x1000000 ≤ (loadRom [9, 8, 7] Console.AGB 2).byteCount := by
  have h := loadRom_amended [9, 8, 7] Console.AGB 2 (by norm_num)
    (by norm_num)
  have hbc : (loadRom [9, 8, 7] Console.AGB 2).byteCount = 0x1000000 := by
    simp only [loadRom, List.length_cons, List.length_nil]
    norm_num
  exact ⟨h.2.1 1 (by rw [hbc]; norm_num) (by norm_num),
    h.2.2.1 100 (by norm_num), h.2.2.2 rfl⟩

/- ## ROM type detection: CheckRomFile (ParseOptions.cpp:143-182) -/

/-- Embeds CheckRomFile (ParseOptions.cpp:143-182).  File-system outcomes
are abstracted as inputs: `openable` models the ifstream opening; `statOk`,
`isDir` and `isReg` model the stat call inside CheckPathIsRegularFile
(ParseOptions.cpp:299-309), which throws only when stat succeeds and the
path is a directory or not a regular file; `gbaLogo` abstracts
Gba::Memory::CheckNintendoLogo over the first 0x134 bytes and `gbLogo`
abstracts the Gb logo check used on the same header. -/
def checkRomFile (openable statOk isDir isReg : Bool) (size : Nat)
    (gbaLogo gbLogo : Bool) : Except String Console :=
  if !openable then .error "Error when attempting to open"
  else if statOk && isDir then .error "Provided path is a directory"
  else if statOk && !isDir && !isReg then
    .error "Provided path is not a regular file"
  else if size > 0x2000000 then
    .error "too large to be a GB or GBA game."
  else if size < 0x134 then
    .error "too small to be a GB or GBA game."
  else if gbaLogo then .ok Console.AGB
  else if gbLogo then
    if size < 0x8000 then .error "too small to be a GB game."
    else .ok Console.CGB
  else .error "Provided ROM is neither a GB or GBA game."

/- ## Claim C10: classification performed by CheckRomFile -/

/-- C10: CheckRomFile returns AGB exactly when the file passed the open,
regular-file and size guards and the GBA logo matches; returns CGB exactly
when those guards pass, the GBA logo does not match, the GB logo matches
and the file is at least 0x8000 bytes; and in every other case it throws
and returns no console. -/
theorem checkRomFile_classification (openable statOk isDir isReg : Bool)
    (size : Nat) (gbaLogo gbLogo : Bool) :
    (checkRomFile openable statOk isDir isReg size gbaLogo gbLogo
        = .ok Console.AGB
      ↔ (openable = true ∧ (statOk && isDir) = false ∧
          (statOk && !isDir && !isReg) = false ∧
          size ≤ 0x2000000 ∧ 0x134 ≤ size ∧ gbaLogo = true)) ∧
    (checkRomFile openable statOk isDir isReg size gbaLogo gbLogo
        = .ok Console.CGB
      ↔ (openable = true ∧ (statOk && isDir) = false ∧
          (statOk && !isDir && !isReg) = false ∧
          size ≤ 0x2000000 ∧ 0x134 ≤ size ∧ gbaLogo = false ∧
          gbLogo = true ∧ 0x8000 ≤ size)) ∧
    ((checkRomFile openable statOk isDir isReg size gbaLogo gbLogo).isOk
        = true
      ↔ (checkRomFile openable statOk isDir isReg size gbaLogo gbLogo
          = .ok Console.AGB ∨
        checkRomFile openable statOk isDir isReg size gbaLogo gbLogo
          = .ok Console.CGB)) := by
  cases openable <;> cases statOk <;> cases isDir <;> cases isReg <;>
    cases gbaLogo <;> cases gbLogo <;>
    by_cases h1 : 0x2000000 < size <;> by_cases h2 : size < 0x134 <;>
    by_cases h3 : size < 0x8000 <;>
    simp [checkRomFile, h1, h2, h3, Except.isOk, Except.toBool] <;>
    omega

end Chroma
